import Mathlib

/-!
Verification of the course-schedule query and command-dispatch engine of
`school.py` (Education-Scripts).  The Python source is shallowly embedded:
pure fragments become Lean functions over `List`/`String`/`Int`; operations
that can raise a Python exception return `Option`/`Except`.
-/

namespace School

/-! ### Python string primitives -/

/-- ASCII lowercasing of one character.  Models Python `str.lower` on the
ASCII range, which is the range exercised by the script's identifiers. -/
def lowerChar : Char → Char
  | 'A' => 'a'
  | 'B' => 'b'
  | 'C' => 'c'
  | 'D' => 'd'
  | 'E' => 'e'
  | 'F' => 'f'
  | 'G' => 'g'
  | 'H' => 'h'
  | 'I' => 'i'
  | 'J' => 'j'
  | 'K' => 'k'
  | 'L' => 'l'
  | 'M' => 'm'
  | 'N' => 'n'
  | 'O' => 'o'
  | 'P' => 'p'
  | 'Q' => 'q'
  | 'R' => 'r'
  | 'S' => 's'
  | 'T' => 't'
  | 'U' => 'u'
  | 'V' => 'v'
  | 'W' => 'w'
  | 'X' => 'x'
  | 'Y' => 'y'
  | 'Z' => 'z'
  | c => c

/-- Models Python `s.lower()`. -/
def pyLower (s : String) : String := ⟨s.data.map lowerChar⟩

/-- Models Python `s.startswith(p)`. -/
def pyStartsWith (s p : String) : Bool := p.data.isPrefixOf s.data

/-- Splitting a character list on a separator character; models Python
`str.split(sep)` for a one-character separator (`"".split(sep) == [""]`,
adjacent separators yield empty pieces). -/
def splitOnChar (sep : Char) : List Char → List (List Char)
  | [] => [[]]
  | c :: cs =>
    if c = sep then [] :: splitOnChar sep cs
    else
      match splitOnChar sep cs with
      | [] => [[c]]
      | h :: t => (c :: h) :: t

/-- Models Python `s.split("-")` as used on course identifiers. -/
def pySplitDash (s : String) : List String :=
  (splitOnChar '-' s.data).map fun l => ⟨l⟩

/-! ### Data model (the dataclasses of `school.py`) -/

/-- `Teacher` dataclass (`name` may be a string or a list in the source; the
claims never inspect teachers, so the union payload is kept as a string). -/
structure Teacher where
  name : String
  email : Option String := none
  website : Option String := none
  office : Option String := none
  note : Option String := none
  deriving DecidableEq, Repr

/-- `Classroom` dataclass. -/
structure Classroom where
  address : Option String := none
  number : Option String := none
  floor : Option Int := none
  deriving DecidableEq, Repr

/-- `Time` dataclass: day name, start/end in minutes since midnight. -/
structure Time where
  day : String
  start : Int
  «end» : Int
  weeks : Option String := none
  deriving DecidableEq, Repr

/-- `Finals` dataclass; the date is modelled as a day number (only ordering
of dates is ever used by the source, and by no claim). -/
structure Finals where
  date : Int
  classroom : Classroom
  deriving DecidableEq, Repr

/-- `Course` dataclass.  The `other : Any` field of the source is free-form
and never read; it is modelled as an optional string. -/
structure Course where
  name : String
  type : String
  abbreviation : String
  teacher : Option Teacher := none
  time : Option Time := none
  classroom : Option Classroom := none
  website : Option String := none
  finals : Option Finals := none
  other : Option String := none
  deriving DecidableEq, Repr

/-- `WD_EN` exactly as written in the source — including the misspelling
`"sundnay"` of the last entry. -/
def WD_EN : List String :=
  ["monday", "tuesday", "wednesday", "thursday", "friday", "saturday", "sundnay"]

/-- Models `WD_EN.index(day.lower())`: the index of the lowered day name in
`WD_EN`, or `none` where Python raises `ValueError`. -/
def wdIndex (day : String) : Option Nat :=
  List.findIdx? (fun d => d == pyLower day) WD_EN

/-- `Course.weekday()`.  `none` models the exceptions Python can raise here:
`AttributeError` when the course has no `time`, and `ValueError` when the
day name is not an entry of `WD_EN`. -/
def Course.weekday? (c : Course) : Option Nat :=
  c.time.bind fun t => wdIndex t.day

/-- The weekday index of a course, for use under guards that have already
established `c.weekday?.isSome`. -/
def Course.wd (c : Course) : Nat := c.weekday?.getD 0

/-- `c.time.start`, for use under guards that established `c.time.isSome`. -/
def Course.startMin (c : Course) : Int := (c.time.map Time.start).getD 0

/-- `c.time.end`, for use under guards that established `c.time.isSome`. -/
def Course.endMin (c : Course) : Int := (c.time.map Time.«end»).getD 0

/-- Whether evaluating `c.weekday()` inside the sort key would succeed
(scheduled course with a recognized day name, or no `time` at all in which
case the key never calls `weekday()`). -/
def validDay (c : Course) : Bool :=
  match c.time with
  | none => true
  | some t => (wdIndex t.day).isSome

/-- The sort key of `get_sorted_courses`:
`(0, 0) if not c.time else (c.weekday(), c.time.start)`. -/
def sortKey (c : Course) : Nat × Int :=
  match c.time with
  | none => (0, 0)
  | some t => ((wdIndex t.day).getD 0, t.start)

/-- Python's lexicographic `<=` on the `(weekday, start)` key tuples. -/
def keyLe (a b : Nat × Int) : Prop :=
  a.1 < b.1 ∨ (a.1 = b.1 ∧ a.2 ≤ b.2)

instance : ∀ a b, Decidable (keyLe a b) := fun a b => by
  unfold keyLe; infer_instance

/-- Strict lexicographic `<` on key tuples. -/
def keyLt (a b : Nat × Int) : Prop :=
  a.1 < b.1 ∨ (a.1 = b.1 ∧ a.2 < b.2)

instance : ∀ a b, Decidable (keyLt a b) := fun a b => by
  unfold keyLt; infer_instance

/-- Comparison of courses by sort key, as used by `sorted(courses, key=...)`. -/
def courseLe (a b : Course) : Prop := keyLe (sortKey a) (sortKey b)

instance : ∀ a b : Course, Decidable (courseLe a b) := fun a b => by
  unfold courseLe; infer_instance

instance : IsTotal Course courseLe :=
  ⟨fun a b => by unfold courseLe keyLe; omega⟩

instance : IsTrans Course courseLe :=
  ⟨fun a b c => by unfold courseLe keyLe; omega⟩

/-- `get_sorted_courses(include_unscheduled)` applied to the courses parsed
from the definition files: keeps a course iff it has a `time` section or
unscheduled courses were requested, then sorts by `sortKey`.  Python's
`sorted` is stable; insertion sort with `courseLe` computes the identical
list.  The result is `none` when Python would crash evaluating the key
(a scheduled course whose day is not in `WD_EN`). -/
def get_sorted_courses (includeUnscheduled : Bool) (courses : List Course) :
    Option (List Course) :=
  if (courses.filter fun c => c.time.isSome || includeUnscheduled).all validDay then
    some (List.insertionSort courseLe
      (courses.filter fun c => c.time.isSome || includeUnscheduled))
  else none

/-! ### Schedule queries (`get_ongoing_course`, `get_course_from_argument`) -/

/-- Transliteration of one character to ASCII; models the external
`unidecode` library restricted to the Czech diacritics the script's course
names can contain (identity on ASCII). -/
def unidecodeChar : Char → Char
  | 'á' => 'a'
  | 'č' => 'c'
  | 'ď' => 'd'
  | 'é' => 'e'
  | 'ě' => 'e'
  | 'í' => 'i'
  | 'ň' => 'n'
  | 'ó' => 'o'
  | 'ř' => 'r'
  | 'š' => 's'
  | 'ť' => 't'
  | 'ú' => 'u'
  | 'ů' => 'u'
  | 'ý' => 'y'
  | 'ž' => 'z'
  | c => c

/-- Models `unidecode(s)`. -/
def unidecode (s : String) : String := ⟨s.data.map unidecodeChar⟩

/-- `Course.is_ongoing()` evaluated at a current weekday `twd` (0–6) and
minute-of-day `tmin`; only called on scheduled courses with a valid day. -/
def isOngoing (twd : Nat) (tmin : Int) (c : Course) : Bool :=
  twd == c.wd && (decide (c.startMin ≤ tmin) && decide (tmin ≤ c.endMin))

/-- `get_ongoing_course()`: the first course of the sorted schedule whose
`is_ongoing()` holds, if any.  The outer `Option` models the crash of
`get_sorted_courses` on an unrecognized day name. -/
def get_ongoing_course (twd : Nat) (tmin : Int) (courses : List Course) :
    Option (Option Course) :=
  (get_sorted_courses false courses).map fun sorted =>
    sorted.find? (isOngoing twd tmin)

/-- Minutes in a day (`MID`). -/
def MID : Int := 1440

/-- Minutes in a week (`MIW`). -/
def MIW : Int := 10080

/-- `time_to_course` of the `'next'` branch: forward distance in minutes,
modulo one week, from the current week position `cwt` to the course start.
Python's `%` on integers and Lean's `Int` `%` (`Int.emod`) both land in
`[0, 10080)` for the positive modulus. -/
def timeToCourse (cwt : Int) (c : Course) : Int :=
  (c.startMin + c.wd * MID - cwt) % MIW

/-- The scan of the `'next'` branch: runs over the sorted courses keeping
the first course attaining the minimum `time_to_course`.  The accumulator
`none` models the initial `min_time = +inf, min_course = None`. -/
def nextAux (cwt : Int) : List Course → Option (Int × Course) → Option (Int × Course)
  | [], best => best
  | c :: cs, best =>
    let t := timeToCourse cwt c
    match best with
    | none => nextAux cwt cs (some (t, c))
    | some (bt, bc) =>
      if t < bt then nextAux cwt cs (some (t, c)) else nextAux cwt cs (some (bt, bc))

/-- The full `'next'` branch of `get_course_from_argument`: scan the sorted
schedule and return the one-element list `[min_course]` (which is `[None]`
when there are no scheduled courses). -/
def nextCourse (cwt : Int) (courses : List Course) : Option (List (Option Course)) :=
  (get_sorted_courses false courses).map fun sorted =>
    [(nextAux cwt sorted none).map (·.2)]

/-- `course.type[0]` as a one-character string (Python raises `IndexError`
on an empty type; callers guard on nonemptiness). -/
def typeFirst (c : Course) : String := ⟨c.type.data.take 1⟩

/-- `type in {None, course.type[0]}` of the abbreviation/name comprehensions. -/
def typeMatches (ty : Option String) (c : Course) : Bool :=
  match ty with
  | none => true
  | some t => t == typeFirst c

/-- `argument.lower().split("-")`. -/
def argParts (arg : String) : List String := pySplitDash (pyLower arg)

/-- `abbr = parts[0]`. -/
def argAbbr (arg : String) : String := (argParts arg).headD ""

/-- `type = None if len(parts) == 1 else parts[1]`. -/
def argType (arg : String) : Option String :=
  if (argParts arg).length == 1 then none else some ((argParts arg).getD 1 "")

/-- One course's test in the abbreviation comprehension:
`abbr == course.abbreviation.lower() and type in {None, course.type[0]}`. -/
def abbrMatches (arg : String) (c : Course) : Bool :=
  argAbbr arg == pyLower c.abbreviation && typeMatches (argType arg) c

/-- One course's test in the name-prefix fallback comprehension. -/
def nameMatches (arg : String) (c : Course) : Bool :=
  pyStartsWith (unidecode (pyLower c.name)) (unidecode (pyLower (argAbbr arg)))
    && typeMatches (argType arg) c

/-- The abbreviation/name branch of `get_course_from_argument` for an
argument that is neither absent nor `'n'`/`'next'`.  `none` models the two
possible crashes: an unrecognized day name in `get_sorted_courses`, and
`course.type[0]` on a course with an empty type (the set literal
`{None, course.type[0]}` is evaluated for every course of the
comprehension). -/
def matchByIdentifier (arg : String) (courses : List Course) :
    Option (List (Option Course)) :=
  (get_sorted_courses false courses).bind fun sorted =>
    if sorted.all fun c => c.type ≠ "" then
      some ((if (sorted.filter (abbrMatches arg)).isEmpty then
        sorted.filter (nameMatches arg)
      else sorted.filter (abbrMatches arg)).map some)
    else none

/-- `get_course_from_argument(argument)` at current weekday `twd` and
minute-of-day `tmin` (so the current week position is `twd * MID + tmin`).
The source handles the absent argument by recursing with `"next"`; that
recursion is inlined here (the `"next"` branch never recurses again). -/
def get_course_from_argument (twd : Nat) (tmin : Int) (courses : List Course) :
    Option String → Option (List (Option Course))
  | none =>
    (get_ongoing_course twd tmin courses).bind fun ongoing =>
      match ongoing with
      | some c => some [some c]
      | none => nextCourse (twd * MID + tmin) courses
  | some arg =>
    if arg = "n" ∨ arg = "next" then nextCourse (twd * MID + tmin) courses
    else matchByIdentifier arg courses

/-- The identifier a course's own abbreviation and type induce:
`abbreviation ++ "-" ++ type[0]` (claim C7's token). -/
def ownToken (c : Course) : String := c.abbreviation ++ "-" ++ typeFirst c

/-! ### The command dispatcher (module-level decision-tree loop) -/

/-- The score the dispatch loop computes for one decision (alias group) `d`:
`max([len(argument) if s.startswith(argument) else 0 for s in d])`.
Note the score is the length of the *token*, not of the alias.  Alias
groups in the tree are nonempty, so folding from `0` agrees with Python's
`max` of a nonempty list of nonnegative numbers. -/
def childScore (arg : String) (d : List String) : Nat :=
  (d.map fun s => if pyStartsWith s arg then arg.data.length else 0).foldl max 0

/-- The score claim C1 describes, written from the spec's words for the
refutation: the length of the *alias* when the alias starts with the token,
else `0`, maximized over the alias group. -/
def specChildScore (arg : String) (d : List String) : Nat :=
  (d.map fun s => if pyStartsWith s arg then s.data.length else 0).foldl max 0

/-- Strict lexicographic comparison of character lists by code point —
Python's `<` on strings. -/
def charListLt : List Char → List Char → Bool
  | [], [] => false
  | [], _ :: _ => true
  | _ :: _, [] => false
  | a :: as, b :: bs =>
    if a.toNat < b.toNat then true else if a = b then charListLt as bs else false

/-- Python's `<` on strings, by code points. -/
def strLt (a b : String) : Bool := charListLt a.data b.data

/-- Python's lexicographic comparison of tuples of strings (used on the
alias groups when `sorted` orders the `(score, d)` pairs). -/
def strListLe : List String → List String → Bool
  | [], _ => true
  | _ :: _, [] => false
  | a :: as, b :: bs => if strLt a b then true else if a = b then strListLe as bs else false

/-- Python's `<=` on the `(score, alias-group)` pairs sorted by the loop. -/
def pairLe (x y : Nat × List String) : Bool :=
  if x.1 < y.1 then true else if x.1 = y.1 then strListLe x.2 y.2 else false

/-- The relation `pairLe` as a decidable proposition, for `insertionSort`. -/
def pairRel (x y : Nat × List String) : Prop := pairLe x y = true

instance : ∀ x y, Decidable (pairRel x y) := fun x y => by
  unfold pairRel; infer_instance

/-- Outcome of one step of the decision-tree loop on one token. -/
inductive StepResult where
  | descend (child : List String)
  | ambiguous (children : List (List String))
  | unmatched
  deriving DecidableEq, Repr

/-- The tail of one dispatch iteration, applied to the sorted `(score,
alias-group)` pairs: `decisions[-1]` is the last element; error out when
its score is `0`; filter the pairs tied at that score; error out when more
than one remains; otherwise descend into the single remaining group.
(`getLast?` is `none` only for an empty node, which the tree does not
contain; Python would raise `IndexError` there.) -/
def dispatchFinish (decisions : List (Nat × List String)) : StepResult :=
  match decisions.getLast? with
  | none => .unmatched
  | some best =>
    if best.1 = 0 then .unmatched
    else
      if 1 < (decisions.filter fun x => x.1 == best.1).length then
        .ambiguous ((decisions.filter fun x => x.1 == best.1).map (·.2))
      else .descend ((decisions.filter fun x => x.1 == best.1).headD (0, [])).2

/-- One iteration of the module-level dispatch loop on token `arg`, with
`children` the alias groups of the current node (in insertion order):
score every group, sort the `(score, group)` pairs, then finish as above. -/
def dispatchStep (arg : String) (children : List (List String)) : StepResult :=
  dispatchFinish
    (List.insertionSort pairRel (children.map fun d => (childScore arg d, d)))

/-- The alias groups of the root of `decision_tree`, in source order. -/
def topChildren : List (List String) :=
  [["list"], ["compile"], ["config"], ["check"], ["open"]]

/-! ### The `Strict` runtime field-type check and the loader -/

/-- The runtime types that can appear as a declared field type or as the
type of a parsed value in the course dataclasses. -/
inductive PyType where
  | int
  | str
  | list
  | dict
  | date
  | teacher
  | classroom
  | time
  | finals
  deriving DecidableEq, Repr

/-- A declared field type: a single class, a `Union[...]` of classes, or
`Any` (which `Strict.__post_init__` skips). -/
inductive PyAnnot where
  | single (t : PyType)
  | union (ts : List PyType)
  | anyT
  deriving DecidableEq, Repr

/-- A parsed runtime value as far as the type check inspects it: `None`, or
a value of one of the runtime types. -/
inductive PyVal where
  | vnone
  | vint (n : Int)
  | vstr (s : String)
  | vlist
  | vdict
  | vdate (d : Int)
  | vteacher
  | vclassroom
  | vtime
  | vfinals
  deriving DecidableEq, Repr

/-- The runtime type of a non-`None` value (`type(value)`); `vnone` is
mapped to `str` only as a placeholder, the check never consults it. -/
def typeOf : PyVal → PyType
  | .vnone => .str
  | .vint _ => .int
  | .vstr _ => .str
  | .vlist => .list
  | .vdict => .dict
  | .vdate _ => .date
  | .vteacher => .teacher
  | .vclassroom => .classroom
  | .vtime => .time
  | .vfinals => .finals

/-- The list of classes `__post_init__` iterates for one declared type:
`get_args(field_type) if get_origin(field_type) is Union else [field_type]`
(`Any` is skipped before this point). -/
def annotTypes : PyAnnot → List PyType
  | .single t => [t]
  | .union ts => ts
  | .anyT => []

/-- A declared field: its name, its declared type, and whether it is
required (has no default; in every dataclass of the source all defaults
are `None`, so optional fields simply start out as skipped `None`s). -/
structure FieldSpec where
  name : String
  annot : PyAnnot
  req : Bool
  deriving DecidableEq, Repr

/-- The payload of the `TypeError` raised by `Strict.__post_init__`: the
field name, the declared (expected) type and the actual runtime type. -/
structure TypeErrorInfo where
  fieldName : String
  expected : PyAnnot
  actual : PyType
  deriving DecidableEq, Repr

/-- `Strict.__post_init__`: walk the annotated fields in declaration order;
skip `None` values and `Any` annotations; otherwise require the value's
runtime type to be one of the declared alternatives, and raise a
`TypeError` naming field, expected and actual type on the first failure. -/
def checkStrict : List (FieldSpec × PyVal) → Except TypeErrorInfo Unit
  | [] => .ok ()
  | (fs, v) :: rest =>
    if v = .vnone ∨ fs.annot = .anyT then checkStrict rest
    else if (annotTypes fs.annot).contains (typeOf v) then checkStrict rest
    else .error ⟨fs.name, fs.annot, typeOf v⟩

/-- The annotated fields of the `Time` dataclass, in declaration order. -/
def timeFieldSpecs : List FieldSpec :=
  [⟨"day", .single .str, true⟩, ⟨"start", .single .int, true⟩,
   ⟨"end", .single .int, true⟩, ⟨"weeks", .single .str, false⟩]

/-- The annotated fields of the `Course` dataclass, in declaration order. -/
def courseFieldSpecs : List FieldSpec :=
  [⟨"name", .single .str, true⟩, ⟨"type", .single .str, true⟩,
   ⟨"abbreviation", .single .str, true⟩, ⟨"teacher", .single .teacher, false⟩,
   ⟨"time", .single .time, false⟩, ⟨"classroom", .single .classroom, false⟩,
   ⟨"website", .single .str, false⟩, ⟨"finals", .single .finals, false⟩,
   ⟨"other", .anyT, false⟩]

/-- The annotated fields of the `Teacher` dataclass, in declaration order. -/
def teacherFieldSpecs : List FieldSpec :=
  [⟨"name", .union [.str, .list], true⟩, ⟨"email", .union [.str, .list], false⟩,
   ⟨"website", .single .str, false⟩, ⟨"office", .single .str, false⟩,
   ⟨"note", .single .str, false⟩]

/-- The annotated fields of the `Classroom` dataclass, in declaration order. -/
def classroomFieldSpecs : List FieldSpec :=
  [⟨"address", .single .str, false⟩, ⟨"number", .single .str, false⟩,
   ⟨"floor", .single .int, false⟩]

/-- The annotated fields of the `Finals` dataclass, in declaration order. -/
def finalsFieldSpecs : List FieldSpec :=
  [⟨"date", .single .date, true⟩, ⟨"classroom", .single .classroom, true⟩]

/-- A field instance violating its declaration: a non-`None` value, a
non-`Any` annotation, and a runtime type among none of the alternatives. -/
def badField (fv : FieldSpec × PyVal) : Prop :=
  fv.2 ≠ .vnone ∧ fv.1.annot ≠ .anyT ∧ typeOf fv.2 ∉ annotTypes fv.1.annot

instance : ∀ fv, Decidable (badField fv) := fun fv => by
  unfold badField; infer_instance

/-! ### The recursive dictionary-to-dataclass conversion and the loader -/

/-- A parsed YAML value as fed to `Course.__from_dictionary`: a scalar, a
list, or a nested key-value mapping. -/
inductive YVal where
  | ynone
  | yint (n : Int)
  | ystr (s : String)
  | ylist (elems : List YVal)
  | ydate (d : Int)
  | ydict (entries : List (String × YVal))

/-- What the load loop aborts with, via
`sys.exit(f"ERROR in {path}: {e}")` at the end of `get_sorted_courses`:
either the structured `TypeError` of `Strict.__post_init__` (field name,
expected and actual type), or one of the *unstructured* exceptions
`__from_dictionary` itself raises before any strict check runs — a
`KeyError` from `fieldtypes[f]` (reported as `Invalid key ...`, carrying
only the stray key) or a `TypeError` from iterating/subscripting/calling
with a value of the wrong shape.  The unstructured errors name neither the
field nor the expected/actual types. -/
inductive LoadError where
  | fieldType (e : TypeErrorInfo)
  | invalidKey (k : String)
  | convTypeError
  deriving DecidableEq, Repr

/-- Whether an abort payload identifies the field name and the
expected/actual types: only the structured `Strict.__post_init__` error
does. -/
def namesFieldInfo : LoadError → Bool
  | .fieldType _ => true
  | _ => false

/-- The runtime value a YAML value becomes when its declared field type is
not a dataclass: `__from_dictionary` returns it unchanged. -/
def yvalToPyVal : YVal → PyVal
  | .ynone => .vnone
  | .yint n => .vint n
  | .ystr s => .vstr s
  | .ylist _ => .vlist
  | .ydate d => .vdate d
  | .ydict _ => .vdict

/-- `is_dataclass(c)` dispatch of `__from_dictionary`: the four dataclass
field types together with their declared fields and the constructed
instance value; `none` for every non-dataclass annotation (scalars,
`Union[...]`, `Any`). -/
def classInfo : PyAnnot → Option (List FieldSpec × PyVal)
  | .single .teacher => some (teacherFieldSpecs, .vteacher)
  | .single .classroom => some (classroomFieldSpecs, .vclassroom)
  | .single .time => some (timeFieldSpecs, .vtime)
  | .single .finals => some (finalsFieldSpecs, .vfinals)
  | _ => none

/-- Whether every required field of the dataclass is supplied by the dict:
`c(**kwargs)` raises a `TypeError` (missing required argument) otherwise. -/
def requiredPresent (specs : List FieldSpec) (entries : List (String × YVal)) : Bool :=
  specs.all fun fs => !fs.req || entries.any fun kv => kv.1 == fs.name

/-- A value that, fed to a dataclass conversion, always crashes it: `None`,
an integer or a date (not iterable), or a nonempty string (its first
character is looked up in `fieldtypes` and fails). -/
def isScalarVal : YVal → Bool
  | .ynone => true
  | .yint _ => true
  | .ydate _ => true
  | .ystr s => !s.data.isEmpty
  | _ => false

/-- The dict comprehension
`{f: cls.__from_dictionary(fieldtypes[f], d[f]) for f in d}` over the
entries of a dict `d`, for a dataclass with fields `specs`; `conv` converts
one value against its declared annotation (recursing into nested
dataclasses).  An unknown key raises `KeyError` (`Invalid key ...`); the
entries are converted in dict order and the first failure propagates. -/
def convertEntriesWith (conv : PyAnnot → YVal → Except LoadError PyVal)
    (specs : List FieldSpec) :
    List (String × YVal) → Except LoadError (List (FieldSpec × PyVal))
  | [] => .ok []
  | (k, v) :: rest =>
    match specs.find? fun fs => fs.name == k with
    | none => .error (.invalidKey k)
    | some fs =>
      match conv fs.annot v with
      | .error e => .error e
      | .ok pv => (convertEntriesWith conv specs rest).map fun ps => (fs, pv) :: ps

/-- One dataclass level of `Course.__from_dictionary` followed by the
construction `c(**kwargs)`: iterate the value as a dict of entries, convert
each against its declared field type with `conv`, then construct — which
first checks required arguments and then runs `Strict.__post_init__` on
the supplied fields (absent fields default to `None`, which the check
skips).  A value that is not a dict crashes the iteration itself:
- `None`, an integer or a date is not iterable (`TypeError`);
- iterating a string yields its characters, and the first character either
  misses `fieldtypes` (`KeyError`, i.e. `Invalid key ...`) or — were it a
  field name — makes `d[f]` subscript the string with a string
  (`TypeError`);
- iterating a list uses its first element as a key analogously (an empty
  string or list supplies no arguments at all and only fails the
  required-argument check). -/
def buildRecordWith (conv : PyAnnot → YVal → Except LoadError PyVal)
    (specs : List FieldSpec) : YVal → Except LoadError Unit
  | .ydict entries =>
    match convertEntriesWith conv specs entries with
    | .error e => .error e
    | .ok pairs =>
      if requiredPresent specs entries then
        match checkStrict pairs with
        | .ok _ => .ok ()
        | .error e => .error (.fieldType e)
      else .error .convTypeError
  | .ynone => .error .convTypeError
  | .yint _ => .error .convTypeError
  | .ydate _ => .error .convTypeError
  | .ystr s =>
    match s.data with
    | [] => if specs.all fun fs => !fs.req then .ok () else .error .convTypeError
    | c :: _ =>
      if specs.any fun fs => fs.name == (⟨[c]⟩ : String) then .error .convTypeError
      else .error (.invalidKey ⟨[c]⟩)
  | .ylist [] => if specs.all fun fs => !fs.req then .ok () else .error .convTypeError
  | .ylist (e :: _) =>
    match e with
    | .ystr s =>
      if specs.any fun fs => fs.name == s then .error .convTypeError
      else .error (.invalidKey s)
    | .yint n => .error (.invalidKey (toString n))
    | .ydate n => .error (.invalidKey (toString n))
    | .ynone => .error (.invalidKey "None")
    | .ylist _ => .error .convTypeError
    | .ydict _ => .error .convTypeError

/-- Conversion of one value against a non-dataclass annotation: returned
unchanged. -/
def convLeaf (_ : PyAnnot) (v : YVal) : Except LoadError PyVal :=
  .ok (yvalToPyVal v)

/-- `__from_dictionary` recurses along the declared field types; the
dataclass graph of the source is finite and acyclic
(`Course → {Teacher, Time, Classroom, Finals}` and `Finals → Classroom`),
so the recursion is unrolled into conversion levels.  This level handles
the annotations occurring inside `Teacher`/`Time`/`Classroom`/`Finals`:
a nested dataclass (only `Finals.classroom`, whose fields are all
non-dataclass) is built recursively, anything else is returned unchanged. -/
def convertValue1 (a : PyAnnot) (v : YVal) : Except LoadError PyVal :=
  match classInfo a with
  | some si => (buildRecordWith convLeaf si.1 v).map fun _ => si.2
  | none => .ok (yvalToPyVal v)

/-- The conversion of one top-level `Course` field value against its
declared type: the four record-typed fields are built as nested
dataclasses (their own nesting handled by `convertValue1`), all other
values are returned unchanged. -/
def convertValue2 (a : PyAnnot) (v : YVal) : Except LoadError PyVal :=
  match classInfo a with
  | some si => (buildRecordWith convertValue1 si.1 v).map fun _ => si.2
  | none => .ok (yvalToPyVal v)

/-- `Course.from_dictionary(course_dict)`: the full construction of one
course record from its parsed definition file. -/
def buildCourse (v : YVal) : Except LoadError Unit :=
  buildRecordWith convertValue2 courseFieldSpecs v

/-- One definition file as the loader sees it after parsing and after the
path-derived `name`/`type`/`abbreviation` keys were added to its dict. -/
structure CourseFile where
  path : String
  contents : YVal

/-- The load loop of `get_sorted_courses`: construct the record of each
file in turn; any exception of the construction aborts the whole load via
`sys.exit(f"ERROR in {path}: ...")`, modelled as an error carrying the
offending path and the exception payload.  On success all files are
returned — no file is skipped. -/
def loadCourses : List CourseFile → Except (String × LoadError) (List CourseFile)
  | [] => .ok []
  | f :: rest =>
    match buildCourse f.contents with
    | .ok _ => (loadCourses rest).map (f :: ·)
    | .error e => .error (f.path, e)

/-! ### Concrete courses and files used as test inputs -/

/-- A scheduled Monday 9:00–10:30 lecture. -/
def cMon : Course :=
  { name := "Algebra", type := "p", abbreviation := "la",
    time := some { day := "monday", start := 540, «end» := 630 } }

/-- A second scheduled Monday course, later in the day. -/
def cBio : Course :=
  { name := "Biology", type := "p", abbreviation := "bio",
    time := some { day := "monday", start := 700, «end» := 800 } }

/-- A course without a `time` section (unscheduled). -/
def cUnsched : Course :=
  { name := "Crafts", type := "p", abbreviation := "cr" }

/-- Monday course starting at minute 540 of the week. -/
def cEarly : Course :=
  { name := "Early", type := "p", abbreviation := "e",
    time := some { day := "monday", start := 540, «end» := 570 } }

/-- Monday course starting at minute 571 of the week. -/
def cLater : Course :=
  { name := "Later", type := "p", abbreviation := "l",
    time := some { day := "monday", start := 571, «end» := 600 } }

/-- A course whose type starts with an uppercase letter. -/
def cX : Course :=
  { name := "Q", type := "Lecture", abbreviation := "x",
    time := some { day := "monday", start := 540, «end» := 630 } }

/-- A course with time.day spelled `"sunday"`, the canonical English name. -/
def cSun : Course :=
  { name := "Rest", type := "p", abbreviation := "r",
    time := some { day := "Sunday", start := 540, «end» := 630 } }

/-- A definition file whose `time.start` field carries a string instead of
an integer (the spec's scenario). -/
def badFile : CourseFile :=
  { path := "aktuální semestr/Algebra (la)/p/info.yaml",
    contents := .ydict
      [("name", .ystr "Algebra"), ("type", .ystr "p"),
       ("abbreviation", .ystr "la"),
       ("time", .ydict
         [("day", .ystr "monday"), ("start", .ystr "9:00"),
          ("end", .yint 630)])] }

/-- A definition file whose record-typed `teacher` field carries the plain
string `"John"` instead of a mapping. -/
def badTeacherFile : CourseFile :=
  { path := "aktuální semestr/Biology (bio)/p/info.yaml",
    contents := .ydict
      [("name", .ystr "Biology"), ("type", .ystr "p"),
       ("abbreviation", .ystr "bio"), ("teacher", .ystr "John")] }

/-- A definition file whose top-level `website` field carries an integer
instead of a string. -/
def badWebsiteFile : CourseFile :=
  { path := "aktuální semestr/Chemistry (ch)/p/info.yaml",
    contents := .ydict
      [("name", .ystr "Chemistry"), ("type", .ystr "p"),
       ("abbreviation", .ystr "ch"), ("website", .yint 5)] }

/-- Whether some alias of the group `d` starts with the token `arg`. -/
def matchesTok (arg : String) (d : List String) : Bool :=
  d.any fun s => pyStartsWith s arg

end School

namespace School

/-! ### C2: the weekday table has `sundnay`, so `"sunday"` fails -/

/-- C2 (code bug): `weekday()` maps the six canonical names monday–saturday
(case-insensitively) to 0–5, but the source's `WD_EN` misspells the last
entry as `"sundnay"`; hence the canonical name `"sunday"`/`"Sunday"` raises
`ValueError` (modelled `none`) instead of returning 6, while the
non-canonical string `"sundnay"` succeeds with 6. -/
theorem c2_weekday_sundnay_typo :
    wdIndex "monday" = some 0 ∧
    wdIndex "Tuesday" = some 1 ∧
    wdIndex "WEDNESDAY" = some 2 ∧
    wdIndex "thursday" = some 3 ∧
    wdIndex "friday" = some 4 ∧
    wdIndex "saturday" = some 5 ∧
    wdIndex "sunday" = none ∧
    wdIndex "Sunday" = none ∧
    wdIndex "sundnay" = some 6 ∧
    Course.weekday? cSun = none :=
  ⟨rfl, rfl, rfl, rfl, rfl, rfl, rfl, rfl, rfl, rfl⟩

/-! ### C4: unscheduled courses sort first, not last -/

/-- C4 (counterexample): with a scheduled Monday course and an unscheduled
course, the sorted-courses query with unscheduled courses included puts the
unscheduled course *before* the scheduled one — its sort key is `(0, 0)` —
refuting the claim that it appears after every scheduled course. -/
theorem c4_counterexample :
    cUnsched.time = none ∧ cMon.time ≠ none ∧
    get_sorted_courses true [cMon, cUnsched] = some [cUnsched, cMon] :=
  ⟨rfl, by decide, rfl⟩

/-! ### C7: a course's own abbreviation+type token can fail to match it -/

/-- C7 (counterexample): for the course `cX` with abbreviation `"x"` and
type `"Lecture"`, the token formed from its own abbreviation, the
separator, and the first letter of its own type is `"x-L"`; matching by
that identifier returns the empty list — the lowercased type part `"l"` is
compared against the unlowercased `type[0] = "L"` — so the course is not
included. -/
theorem c7_counterexample :
    ownToken cX = "x-L" ∧
    get_course_from_argument 0 0 [cX] (some (ownToken cX)) = some [] :=
  ⟨rfl, rfl⟩

/-! ### C8: an empty (non-absent) token is an ordinary identifier -/

/-- C8 (counterexample): at Monday 10:00 the course `cMon` is ongoing, yet
the *empty* identifier token returns both courses (the empty string
prefix-matches every course name), not the one-element list with the
ongoing course; only the absent token returns the ongoing course. -/
theorem c8_counterexample :
    get_ongoing_course 0 600 [cMon, cBio] = some (some cMon) ∧
    get_course_from_argument 0 600 [cMon, cBio] (some "") =
      some [some cMon, some cBio] ∧
    ([some cMon, some cBio] : List (Option Course)) ≠ [some cMon] :=
  ⟨rfl, rfl, by decide⟩

/-! ### C1: the dispatcher scores by token length, not alias length -/

/-- C1 (counterexample): on the token `"c"` at the root of the decision
tree, the child `{"compile"}` is the unique child with positive maximal
score under the claim's alias-length scoring (7, against 6 for `config`,
5 for `check` and 0 for the rest), so by the claim the dispatcher would
descend into it; the code instead scores every matching child by the token
length 1 and fails with the ambiguous-token error. -/
theorem c1_counterexample :
    specChildScore "c" ["compile"] = 7 ∧
    specChildScore "c" ["config"] = 6 ∧
    specChildScore "c" ["check"] = 5 ∧
    specChildScore "c" ["list"] = 0 ∧
    specChildScore "c" ["open"] = 0 ∧
    dispatchStep "c" topChildren = .ambiguous [["check"], ["compile"], ["config"]] :=
  ⟨rfl, rfl, rfl, rfl, rfl, rfl⟩

/-! ### Lemmas about the strict field-type check -/

theorem checkStrict_ok_iff :
    ∀ l : List (FieldSpec × PyVal), checkStrict l = .ok () ↔ ∀ fv ∈ l, ¬ badField fv
  | [] => by simp [checkStrict]
  | (fs, v) :: rest => by
    unfold checkStrict
    by_cases h1 : v = .vnone ∨ fs.annot = .anyT
    · rw [if_pos h1, checkStrict_ok_iff rest]
      constructor
      · intro hr fv hfv
        rcases List.mem_cons.mp hfv with rfl | hfv
        · rintro ⟨hv, ha, -⟩
          rcases h1 with h1 | h1
          · exact hv h1
          · exact ha h1
        · exact hr fv hfv
      · intro hall fv hfv
        exact hall fv (List.mem_cons_of_mem _ hfv)
    · rw [if_neg h1]
      by_cases h2 : (annotTypes fs.annot).contains (typeOf v)
      · rw [if_pos h2, checkStrict_ok_iff rest]
        constructor
        · intro hr fv hfv
          rcases List.mem_cons.mp hfv with rfl | hfv
          · rintro ⟨-, -, hmem⟩
            exact hmem (List.elem_iff.mp h2)
          · exact hr fv hfv
        · intro hall fv hfv
          exact hall fv (List.mem_cons_of_mem _ hfv)
      · rw [if_neg h2]
        constructor
        · intro heq
          exact absurd heq (by simp)
        · intro hall
          push_neg at h1
          exact absurd ⟨h1.1, h1.2, fun hm => h2 (List.elem_iff.mpr hm)⟩
            (hall _ (List.mem_cons_self _ _))

theorem checkStrict_error_spec :
    ∀ (l : List (FieldSpec × PyVal)) (e : TypeErrorInfo), checkStrict l = .error e →
      ∃ fv ∈ l, fv.2 ≠ .vnone ∧ fv.1.annot ≠ .anyT ∧
        e = ⟨fv.1.name, fv.1.annot, typeOf fv.2⟩ ∧
        typeOf fv.2 ∉ annotTypes fv.1.annot
  | [] => by simp [checkStrict]
  | (fs, v) :: rest => by
    intro e
    unfold checkStrict
    by_cases h1 : v = .vnone ∨ fs.annot = .anyT
    · rw [if_pos h1]
      intro h
      obtain ⟨fv, hfv, hprops⟩ := checkStrict_error_spec rest e h
      exact ⟨fv, List.mem_cons_of_mem _ hfv, hprops⟩
    · rw [if_neg h1]
      by_cases h2 : (annotTypes fs.annot).contains (typeOf v)
      · rw [if_pos h2]
        intro h
        obtain ⟨fv, hfv, hprops⟩ := checkStrict_error_spec rest e h
        exact ⟨fv, List.mem_cons_of_mem _ hfv, hprops⟩
      · rw [if_neg h2]
        intro h
        push_neg at h1
        refine ⟨(fs, v), List.mem_cons_self _ _, h1.1, h1.2, ?_, ?_⟩
        · exact (Except.error.injEq _ _).mp h.symm
        · exact fun hm => h2 (List.elem_iff.mpr hm)

theorem checkStrict_error_of_bad (l : List (FieldSpec × PyVal))
    (h : ∃ fv ∈ l, badField fv) : ∃ e, checkStrict l = .error e := by
  cases hck : checkStrict l with
  | ok u =>
    obtain ⟨fv, hfv, hbad⟩ := h
    cases u
    exact absurd hbad ((checkStrict_ok_iff l).mp hck fv hfv)
  | error e => exact ⟨e, rfl⟩

/-! ### C9: `None` values are skipped by the strict check -/

/-- C9 (confirmed): the strict field-type check never rejects a field whose
value is `None` — a record whose every field is either `None` or well-typed
(or `Any`-annotated) passes validation, regardless of the declared types of
the `None` fields.  In particular a required field carrying `None` passes
unrejected. -/
theorem c9_none_fields_pass (l : List (FieldSpec × PyVal))
    (h : ∀ fv ∈ l, fv.2 = .vnone ∨ fv.1.annot = .anyT ∨
      typeOf fv.2 ∈ annotTypes fv.1.annot) :
    checkStrict l = .ok () := by
  refine (checkStrict_ok_iff l).mpr fun fv hfv => ?_
  rintro ⟨hv, ha, hmem⟩
  rcases h fv hfv with h | h | h
  · exact hv h
  · exact ha h
  · exact hmem h

/-- C9 (witness): a `Time` whose required `day` is `None` and a `Course`
whose required `name` is `None` both pass the strict check. -/
theorem c9_none_fields_pass_witness :
    checkStrict (timeFieldSpecs.zip [.vnone, .vint 540, .vint 630, .vnone]) = .ok () ∧
    checkStrict (courseFieldSpecs.zip
      [.vnone, .vstr "p", .vstr "la", .vnone, .vnone, .vnone, .vnone, .vnone,
        .vnone]) = .ok () :=
  ⟨c9_none_fields_pass _ (by decide), c9_none_fields_pass _ (by decide)⟩

/-! ### C6: how a wrongly-typed field aborts the load -/

/-- A successfully converted entry whose declared field is found and whose
value converts is among the produced pairs. -/
theorem convertEntriesWith_mem (conv : PyAnnot → YVal → Except LoadError PyVal)
    (specs : List FieldSpec) :
    ∀ (entries : List (String × YVal)) (pairs : List (FieldSpec × PyVal))
      (k : String) (v : YVal) (fs : FieldSpec) (pv : PyVal),
      convertEntriesWith conv specs entries = .ok pairs →
      (k, v) ∈ entries →
      specs.find? (fun s => s.name == k) = some fs →
      conv fs.annot v = .ok pv →
      (fs, pv) ∈ pairs
  | [], _, _, _, _, _, hok, hm, _, _ => absurd hm (List.not_mem_nil _)
  | (k0, v0) :: rest, pairs, k, v, fs, pv, hok, hm, hfind, hconv => by
    unfold convertEntriesWith at hok
    cases hf0 : specs.find? (fun s => s.name == k0) with
    | none =>
      rw [hf0] at hok
      exact absurd hok (by simp)
    | some fs0 =>
      rw [hf0] at hok
      dsimp only at hok
      cases hc0 : conv fs0.annot v0 with
      | error e0 =>
        rw [hc0] at hok
        exact absurd hok (by simp)
      | ok pv0 =>
        rw [hc0] at hok
        dsimp only at hok
        cases hr : convertEntriesWith conv specs rest with
        | error e0 =>
          rw [hr] at hok
          exact absurd hok (by simp [Except.map])
        | ok ps =>
          rw [hr] at hok
          simp only [Except.map] at hok
          have hpairs : pairs = (fs0, pv0) :: ps := by
            injection hok with h
            exact h.symm
          rcases List.mem_cons.mp hm with heq | hm2
          · have hk : k = k0 := congrArg Prod.fst heq
            have hv : v = v0 := congrArg Prod.snd heq
            subst hk
            subst hv
            rw [hf0] at hfind
            injection hfind with hfs
            subst hfs
            rw [hc0] at hconv
            injection hconv with hpv
            subst hpv
            rw [hpairs]
            exact List.mem_cons_self _ _
          · rw [hpairs]
            exact List.mem_cons_of_mem _
              (convertEntriesWith_mem conv specs rest ps k v fs pv hr hm2 hfind hconv)

/-- If some entry of the dict fails to convert, the whole comprehension
fails (with that entry's error, or an earlier one). -/
theorem convertEntriesWith_error_of_entry
    (conv : PyAnnot → YVal → Except LoadError PyVal) (specs : List FieldSpec) :
    ∀ (entries : List (String × YVal)) (k : String) (v : YVal) (fs : FieldSpec)
      (e : LoadError),
      (k, v) ∈ entries →
      specs.find? (fun s => s.name == k) = some fs →
      conv fs.annot v = .error e →
      ∃ e2, convertEntriesWith conv specs entries = .error e2
  | [], _, _, _, _, hm, _, _ => absurd hm (List.not_mem_nil _)
  | (k0, v0) :: rest, k, v, fs, e, hm, hfind, hconv => by
    unfold convertEntriesWith
    rcases List.mem_cons.mp hm with heq | hm2
    · have hk : k = k0 := congrArg Prod.fst heq
      have hv : v = v0 := congrArg Prod.snd heq
      subst hk
      subst hv
      rw [hfind]
      dsimp only
      rw [hconv]
      exact ⟨e, rfl⟩
    · cases hf0 : specs.find? (fun s => s.name == k0) with
      | none => exact ⟨.invalidKey k0, rfl⟩
      | some fs0 =>
        cases hc0 : conv fs0.annot v0 with
        | error e0 =>
          refine ⟨e0, ?_⟩
          dsimp only
          rw [hc0]
        | ok pv0 =>
          obtain ⟨e2, he2⟩ :=
            convertEntriesWith_error_of_entry conv specs rest k v fs e hm2 hfind hconv
          refine ⟨e2, ?_⟩
          dsimp only
          rw [hc0]
          dsimp only
          rw [he2]
          rfl

/-- A `None`, integer, date, or nonempty-string value always crashes the
dict-to-dataclass conversion, whatever the target dataclass. -/
theorem buildRecordWith_scalar_error (conv : PyAnnot → YVal → Except LoadError PyVal)
    (specs : List FieldSpec) :
    ∀ v : YVal, isScalarVal v = true → ∃ e, buildRecordWith conv specs v = .error e
  | .ynone, _ => ⟨.convTypeError, rfl⟩
  | .yint _, _ => ⟨.convTypeError, rfl⟩
  | .ydate _, _ => ⟨.convTypeError, rfl⟩
  | .ystr s, hv => by
    cases hd : s.data with
    | nil => simp [isScalarVal, hd] at hv
    | cons c cs =>
      unfold buildRecordWith
      dsimp only
      rw [hd]
      dsimp only
      by_cases h : (specs.any fun fs => fs.name == (⟨[c]⟩ : String)) = true
      · exact ⟨.convTypeError, by rw [if_pos h]⟩
      · exact ⟨.invalidKey ⟨[c]⟩, by rw [if_neg h]⟩
  | .ylist _, hv => by simp [isScalarVal] at hv
  | .ydict _, hv => by simp [isScalarVal] at hv

/-- The load loop aborts at the first file whose construction raises,
reporting that file's path. -/
theorem loadCourses_error_of_first :
    ∀ (pre : List CourseFile) (f : CourseFile) (suf : List CourseFile) (e : LoadError),
      (∀ g ∈ pre, buildCourse g.contents = .ok ()) →
      buildCourse f.contents = .error e →
      loadCourses (pre ++ f :: suf) = .error (f.path, e)
  | [], f, suf, e, _, hf => by
    show loadCourses (f :: suf) = _
    unfold loadCourses
    rw [hf]
  | g0 :: pre2, f, suf, e, hpre, hf => by
    have h0 : buildCourse g0.contents = .ok () := hpre g0 (List.mem_cons_self _ _)
    show loadCourses (g0 :: (pre2 ++ f :: suf)) = _
    unfold loadCourses
    rw [h0, loadCourses_error_of_first pre2 f suf e
      (fun g hg => hpre g (List.mem_cons_of_mem _ hg)) hf]
    rfl

/-- C6 (counterexample): a record-typed field with a wrongly-typed value is
within the claim's scope (`teacher`, declared `Teacher`, given the string
`"John"`), and it does abort the load naming the file — but the abort comes
from the dict-to-dataclass conversion iterating the string
(`KeyError: 'J'`, reported `Invalid key 'J'.`), which identifies neither
the field name nor the expected/actual types, refuting the claim. -/
theorem c6_counterexample :
    loadCourses [badTeacherFile] =
      .error ("aktuální semestr/Biology (bio)/p/info.yaml", .invalidKey "J") ∧
    namesFieldInfo (.invalidKey "J") = false ∧
    yvalToPyVal (.ystr "John") ≠ .vnone ∧
    PyAnnot.single .teacher ≠ .anyT ∧
    typeOf (yvalToPyVal (.ystr "John")) ∉ annotTypes (PyAnnot.single .teacher) :=
  ⟨rfl, rfl, by decide, by decide, by decide⟩

/-- C6 (amended, proved): let `f` be the first definition file whose
construction fails.  (i) Whatever the failure, the whole load aborts with
an error naming `f`'s path — never a per-file-skipping success list.
(ii) When the conversion phase of `f`'s dict succeeds and all required
fields are present, a *leaf-typed* (non-dataclass-annotated) field whose
non-`None` value has a runtime type among none of the declared
alternatives makes the construction fail with the structured
`Strict.__post_init__` error carrying the field name, the declared
expected type, and the actual type of a genuinely mismatched field.
(iii) A *record-typed* (dataclass-annotated) field whose value is `None`,
an integer, a date, or a nonempty string also makes the construction fail
— the abort of (i) still happens — but through the conversion itself,
before any strict check runs. -/
theorem c6_load_aborts (pre suf : List CourseFile) (f : CourseFile)
    (hpre : ∀ g ∈ pre, buildCourse g.contents = .ok ())
    (entries : List (String × YVal)) (hdict : f.contents = .ydict entries) :
    (∀ e, buildCourse f.contents = .error e →
      loadCourses (pre ++ f :: suf) = .error (f.path, e) ∧
      ∀ ok, loadCourses (pre ++ f :: suf) ≠ .ok ok) ∧
    (∀ pairs, convertEntriesWith convertValue2 courseFieldSpecs entries = .ok pairs →
      requiredPresent courseFieldSpecs entries = true →
      ∀ k v fs, (k, v) ∈ entries →
        courseFieldSpecs.find? (fun s => s.name == k) = some fs →
        classInfo fs.annot = none → yvalToPyVal v ≠ .vnone → fs.annot ≠ .anyT →
        typeOf (yvalToPyVal v) ∉ annotTypes fs.annot →
        ∃ e, buildCourse f.contents = .error (.fieldType e) ∧
          ∃ fv ∈ pairs, fv.2 ≠ .vnone ∧ e.fieldName = fv.1.name ∧
            e.expected = fv.1.annot ∧ e.actual = typeOf fv.2 ∧
            e.actual ∉ annotTypes e.expected) ∧
    (∀ k v fs, (k, v) ∈ entries →
      courseFieldSpecs.find? (fun s => s.name == k) = some fs →
      classInfo fs.annot ≠ none → isScalarVal v = true →
      ∃ e, buildCourse f.contents = .error e) := by
  refine ⟨?_, ?_, ?_⟩
  · intro e he
    have hload := loadCourses_error_of_first pre f suf e hpre he
    exact ⟨hload, fun ok h => by rw [hload] at h; exact absurd h (by simp)⟩
  · intro pairs hconv hreq k v fs hm hfind hleaf hnn hna hnt
    have hcv : convertValue2 fs.annot v = .ok (yvalToPyVal v) := by
      unfold convertValue2
      rw [hleaf]
    have hmemp : (fs, yvalToPyVal v) ∈ pairs :=
      convertEntriesWith_mem convertValue2 courseFieldSpecs entries pairs k v fs _
        hconv hm hfind hcv
    obtain ⟨e, he⟩ := checkStrict_error_of_bad pairs
      ⟨(fs, yvalToPyVal v), hmemp, hnn, hna, hnt⟩
    obtain ⟨fv, hfv, hv, ha, hee, hmem2⟩ := checkStrict_error_spec pairs e he
    refine ⟨e, ?_, fv, hfv, hv, ?_, ?_, ?_, ?_⟩
    · unfold buildCourse
      rw [hdict]
      unfold buildRecordWith
      dsimp only
      rw [hconv]
      dsimp only
      rw [if_pos hreq, he]
    · rw [hee]
    · rw [hee]
    · rw [hee]
    · rw [hee]
      exact hmem2
  · intro k v fs hm hfind hrec hsv
    obtain ⟨si, hsi⟩ : ∃ si, classInfo fs.annot = some si := by
      cases hc : classInfo fs.annot with
      | none => exact absurd hc hrec
      | some si => exact ⟨si, rfl⟩
    obtain ⟨e0, he0⟩ := buildRecordWith_scalar_error convertValue1 si.1 v hsv
    have hcv : convertValue2 fs.annot v = .error e0 := by
      unfold convertValue2
      rw [hsi]
      dsimp only
      rw [he0]
      rfl
    obtain ⟨e2, he2⟩ := convertEntriesWith_error_of_entry convertValue2
      courseFieldSpecs entries k v fs e0 hm hfind hcv
    refine ⟨e2, ?_⟩
    unfold buildCourse
    rw [hdict]
    unfold buildRecordWith
    dsimp only
    rw [he2]

/-- C6 (witness): the spec scenario — `time.start` given as `"9:00"` —
aborts the load with the structured error naming `start`, `int`, `str` and
the file; a top-level leaf mismatch (`website: 5`) goes through the amended
theorem's structured arm, and the record-typed `teacher: "John"` file goes
through its unstructured arm and the abort arm. -/
theorem c6_load_aborts_witness :
    loadCourses [badFile] =
      .error ("aktuální semestr/Algebra (la)/p/info.yaml",
        .fieldType ⟨"start", .single .int, .str⟩) ∧
    loadCourses [badWebsiteFile] =
      .error ("aktuální semestr/Chemistry (ch)/p/info.yaml",
        .fieldType ⟨"website", .single .str, .int⟩) ∧
    (∃ e, buildCourse badWebsiteFile.contents = .error (.fieldType e) ∧
      ∃ fv ∈ [((⟨"name", .single .str, true⟩ : FieldSpec), PyVal.vstr "Chemistry"),
        (⟨"type", .single .str, true⟩, .vstr "p"),
        (⟨"abbreviation", .single .str, true⟩, .vstr "ch"),
        (⟨"website", .single .str, false⟩, .vint 5)],
        fv.2 ≠ .vnone ∧ e.fieldName = fv.1.name ∧ e.expected = fv.1.annot ∧
        e.actual = typeOf fv.2 ∧ e.actual ∉ annotTypes e.expected) ∧
    (∃ e, buildCourse badTeacherFile.contents = .error e) ∧
    loadCourses [badTeacherFile] =
      .error ("aktuální semestr/Biology (bio)/p/info.yaml", .invalidKey "J") :=
  ⟨rfl, rfl,
    (c6_load_aborts [] [] badWebsiteFile (fun g hg => absurd hg (List.not_mem_nil g))
        _ rfl).2.1 _ rfl rfl
      "website" (.yint 5) ⟨"website", .single .str, false⟩
      (List.mem_cons_of_mem _ (List.mem_cons_of_mem _ (List.mem_cons_of_mem _
        (List.mem_cons_self _ _))))
      rfl rfl (by decide) (by decide) (by decide),
    (c6_load_aborts [] [] badTeacherFile (fun g hg => absurd hg (List.not_mem_nil g))
        _ rfl).2.2
      "teacher" (.ystr "John") ⟨"teacher", .single .teacher, false⟩
      (List.mem_cons_of_mem _ (List.mem_cons_of_mem _ (List.mem_cons_of_mem _
        (List.mem_cons_self _ _))))
      rfl (by decide) rfl,
    rfl⟩

/-! ### C10: the next-course query on an empty schedule returns `[None]` -/

/-- C10 (confirmed): when no course is scheduled, the `'next'` query
returns the one-element list `[None]` (not the empty list), the absent
identifier falls back to the same one-element list, and its length is 1 —
so callers testing only the length treat it as a single match. -/
theorem c10_empty_schedule (twd : Nat) (tmin : Int) (courses : List Course)
    (h : ∀ c ∈ courses, c.time = none) :
    nextCourse (twd * MID + tmin) courses = some [none] ∧
    get_course_from_argument twd tmin courses (some "next") = some [none] ∧
    get_course_from_argument twd tmin courses none = some [none] ∧
    ([(none : Option Course)]).length = 1 := by
  have hfil : courses.filter (fun c => c.time.isSome || false) = [] := by
    rw [List.filter_eq_nil_iff]
    intro c hc
    rw [h c hc]
    simp
  have hgsc : get_sorted_courses false courses = some [] := by
    unfold get_sorted_courses
    rw [hfil]
    rfl
  have hnext : nextCourse (twd * MID + tmin) courses = some [none] := by
    unfold nextCourse
    rw [hgsc]
    rfl
  refine ⟨hnext, ?_, ?_, rfl⟩
  · simp only [get_course_from_argument]
    rw [if_pos (Or.inr trivial)]
    exact hnext
  · simp only [get_course_from_argument, get_ongoing_course, hgsc, Option.map_some,
      List.find?_nil, Option.some_bind]
    exact hnext

/-! ### The sorted-courses query: order, permutation, stability -/

/-- Unpacking a successful `get_sorted_courses` run. -/
theorem get_sorted_courses_eq {b : Bool} {courses l : List Course}
    (h : get_sorted_courses b courses = some l) :
    l = List.insertionSort courseLe (courses.filter fun c => c.time.isSome || b) := by
  unfold get_sorted_courses at h
  split at h
  · injection h with h
    exact h.symm
  · exact absurd h (by simp)

/-- Filtering with a predicate that pins the sort key commutes with one
ordered insertion: skipped elements have strictly smaller keys, hence
cannot satisfy the predicate. -/
theorem filter_orderedInsert (p : Course → Bool) (k : Nat × Int)
    (hp : ∀ c, p c = true → sortKey c = k) (a : Course) :
    ∀ l : List Course, (List.orderedInsert courseLe a l).filter p =
      if p a then a :: l.filter p else l.filter p
  | [] => by
    cases hpa : p a <;> simp [List.orderedInsert, List.filter_cons, hpa]
  | x :: xs => by
    simp only [List.orderedInsert]
    by_cases hax : courseLe a x
    · rw [if_pos hax]
      cases hpa : p a <;> simp [List.filter_cons, hpa]
    · rw [if_neg hax]
      rw [List.filter_cons, filter_orderedInsert p k hp a xs]
      cases hpx : p x
      · simp [List.filter_cons, hpx]
      · cases hpa : p a
        · simp [List.filter_cons, hpx, hpa]
        · exfalso
          apply hax
          unfold courseLe keyLe
          rw [hp a hpa, hp x hpx]
          omega

/-- Stability of the sort: filtering by any predicate that pins the sort
key yields the same sublist before and after sorting, i.e. elements of
equal key keep their original relative order. -/
theorem filter_insertionSort (p : Course → Bool) (k : Nat × Int)
    (hp : ∀ c, p c = true → sortKey c = k) :
    ∀ l : List Course, (List.insertionSort courseLe l).filter p = l.filter p
  | [] => rfl
  | a :: l => by
    simp only [List.insertionSort]
    rw [filter_orderedInsert p k hp a _, filter_insertionSort p k hp l,
      List.filter_cons]

/-- C5 (confirmed): on any successful run, the scheduled courses of the
sorted output are sorted non-decreasingly by the `(weekday, start)` key,
they are a permutation of the input's scheduled courses, and for every key
value the scheduled courses carrying exactly that key appear in their
original discovery order. -/
theorem c5_sorted_perm_stable (b : Bool) (courses l : List Course)
    (h : get_sorted_courses b courses = some l) :
    List.Sorted courseLe (l.filter fun c => c.time.isSome) ∧
    (l.filter fun c => c.time.isSome).Perm
      (courses.filter fun c => c.time.isSome) ∧
    ∀ k : Nat × Int,
      l.filter (fun c => c.time.isSome && decide (sortKey c = k)) =
        courses.filter (fun c => c.time.isSome && decide (sortKey c = k)) := by
  have hl := get_sorted_courses_eq h
  have hsorted : List.Sorted courseLe l := by
    rw [hl]
    exact List.sorted_insertionSort courseLe _
  refine ⟨List.Pairwise.sublist (List.filter_sublist _) hsorted, ?_, ?_⟩
  · have hperm : l.Perm (courses.filter fun c => c.time.isSome || b) := by
      rw [hl]
      exact List.perm_insertionSort courseLe _
    have hfe : (courses.filter fun c => c.time.isSome || b).filter
        (fun c => c.time.isSome) = courses.filter fun c => c.time.isSome := by
      rw [List.filter_filter]
      apply List.filter_congr
      intro c _
      cases hq : c.time.isSome <;> simp [hq]
    have hpf := hperm.filter (fun c => c.time.isSome)
    rw [hfe] at hpf
    exact hpf
  · intro k
    have hp : ∀ c, (c.time.isSome && decide (sortKey c = k)) = true →
        sortKey c = k := by
      intro c hc
      exact of_decide_eq_true (Bool.and_elim_right hc)
    have h1 : l.filter (fun c => c.time.isSome && decide (sortKey c = k)) =
        (courses.filter fun c => c.time.isSome || b).filter
          (fun c => c.time.isSome && decide (sortKey c = k)) := by
      rw [hl]
      exact filter_insertionSort _ k hp _
    rw [h1, List.filter_filter]
    apply List.filter_congr
    intro c _
    cases hq : c.time.isSome <;> simp [hq]

/-- C5 (witness): two Monday courses given out of order come back sorted,
as a permutation, and with their per-key sublists preserved. -/
theorem c5_sorted_perm_stable_witness :
    List.Sorted courseLe ([cMon, cBio].filter fun c => c.time.isSome) ∧
    ([cMon, cBio].filter fun c => c.time.isSome).Perm
      ([cBio, cMon].filter fun c => c.time.isSome) ∧
    ∀ k : Nat × Int,
      [cMon, cBio].filter (fun c => c.time.isSome && decide (sortKey c = k)) =
        [cBio, cMon].filter (fun c => c.time.isSome && decide (sortKey c = k)) :=
  c5_sorted_perm_stable false [cBio, cMon] [cMon, cBio] rfl

/-! ### C4: where unscheduled courses actually sort -/

/-- C4 (amended, proved): in the sorted output, once a course with sort key
strictly greater than `(0, 0)` occurs, every later course is scheduled;
equivalently, every course with no `time` section (key `(0, 0)`) appears
*before* every scheduled course whose key exceeds `(0, 0)` — not after it,
as claimed. -/
theorem c4_unscheduled_sort_first (b : Bool) (courses l : List Course)
    (h : get_sorted_courses b courses = some l) :
    l.Pairwise fun a c => keyLt (0, 0) (sortKey a) → c.time ≠ none := by
  have hl := get_sorted_courses_eq h
  have hsorted : List.Sorted courseLe l := by
    rw [hl]
    exact List.sorted_insertionSort courseLe _
  refine hsorted.imp ?_
  intro a c hac hka hcn
  have hkc : sortKey c = (0, 0) := by
    unfold sortKey
    rw [hcn]
  unfold courseLe keyLe at hac
  unfold keyLt at hka
  rw [hkc] at hac
  omega

/-- C4 (amended witness): with one scheduled and one unscheduled course the
pairwise property holds on the sorted output `[cUnsched, cMon]`. -/
theorem c4_unscheduled_sort_first_witness :
    ([cUnsched, cMon] : List Course).Pairwise
      fun a c => keyLt (0, 0) (sortKey a) → c.time ≠ none :=
  c4_unscheduled_sort_first true [cMon, cUnsched] [cUnsched, cMon] rfl

/-! ### C3: the next-course query minimizes the forward week distance -/

/-- The scan `nextAux` keeps its accumulator when nothing in the remaining
list is strictly closer, and otherwise returns the first course of the
remaining list attaining the minimum forward distance. -/
theorem nextAux_spec (cwt : Int) :
    ∀ (l : List Course) (bt : Int) (bc : Course),
      (nextAux cwt l (some (bt, bc)) = some (bt, bc) ∧
        ∀ c ∈ l, bt ≤ timeToCourse cwt c) ∨
      (∃ pre c suf, l = pre ++ c :: suf ∧
        nextAux cwt l (some (bt, bc)) = some (timeToCourse cwt c, c) ∧
        timeToCourse cwt c < bt ∧
        (∀ x ∈ l, timeToCourse cwt c ≤ timeToCourse cwt x) ∧
        ∀ x ∈ pre, timeToCourse cwt c < timeToCourse cwt x)
  | [], bt, bc => Or.inl ⟨rfl, by simp⟩
  | c :: cs, bt, bc => by
    have hstep : nextAux cwt (c :: cs) (some (bt, bc)) =
        if timeToCourse cwt c < bt then
          nextAux cwt cs (some (timeToCourse cwt c, c))
        else nextAux cwt cs (some (bt, bc)) := rfl
    by_cases hlt : timeToCourse cwt c < bt
    · rw [hstep, if_pos hlt]
      rcases nextAux_spec cwt cs (timeToCourse cwt c) c with
        ⟨heq, hmin⟩ | ⟨pre, c₂, suf, hl, heq, h2, hmin, hpre⟩
      · refine Or.inr ⟨[], c, cs, rfl, heq, hlt, ?_, by simp⟩
        intro x hx
        rcases List.mem_cons.mp hx with rfl | hx
        · exact le_refl _
        · exact hmin x hx
      · refine Or.inr ⟨c :: pre, c₂, suf, by rw [hl, List.cons_append],
          heq, lt_trans h2 hlt, ?_, ?_⟩
        · intro x hx
          rcases List.mem_cons.mp hx with rfl | hx
          · exact le_of_lt h2
          · exact hmin x hx
        · intro x hx
          rcases List.mem_cons.mp hx with rfl | hx
          · exact h2
          · exact hpre x hx
    · rw [hstep, if_neg hlt]
      push_neg at hlt
      rcases nextAux_spec cwt cs bt bc with
        ⟨heq, hmin⟩ | ⟨pre, c₂, suf, hl, heq, h2, hmin, hpre⟩
      · refine Or.inl ⟨heq, ?_⟩
        intro x hx
        rcases List.mem_cons.mp hx with rfl | hx
        · exact hlt
        · exact hmin x hx
      · refine Or.inr ⟨c :: pre, c₂, suf, by rw [hl, List.cons_append],
          heq, h2, ?_, ?_⟩
        · intro x hx
          rcases List.mem_cons.mp hx with rfl | hx
          · exact le_of_lt (lt_of_lt_of_le h2 hlt)
          · exact hmin x hx
        · intro x hx
          rcases List.mem_cons.mp hx with rfl | hx
          · exact lt_of_lt_of_le h2 hlt
          · exact hpre x hx

/-- C3 (confirmed): on a nonempty sorted schedule the `'next'` query
returns the one-element list holding the course that minimizes the forward
distance in minutes modulo one week, and among courses attaining the
minimum it is the first one in schedule order (every course strictly
before it in the schedule is strictly farther). -/
theorem c3_next_course_min (cwt : Int) (courses sorted : List Course)
    (hs : get_sorted_courses false courses = some sorted) (hne : sorted ≠ []) :
    ∃ c pre suf, nextCourse cwt courses = some [some c] ∧
      sorted = pre ++ c :: suf ∧
      (∀ x ∈ sorted, timeToCourse cwt c ≤ timeToCourse cwt x) ∧
      ∀ x ∈ pre, timeToCourse cwt c < timeToCourse cwt x := by
  have hnc : nextCourse cwt courses =
      some [(nextAux cwt sorted none).map (·.2)] := by
    unfold nextCourse
    rw [hs]
    rfl
  cases sorted with
  | nil => exact absurd rfl hne
  | cons c0 rest =>
    have h0 : nextAux cwt (c0 :: rest) none =
        nextAux cwt rest (some (timeToCourse cwt c0, c0)) := rfl
    rcases nextAux_spec cwt rest (timeToCourse cwt c0) c0 with
      ⟨heq, hmin⟩ | ⟨pre, c₂, suf, hl, heq, h2, hmin, hpre⟩
    · refine ⟨c0, [], rest, ?_, rfl, ?_, by simp⟩
      · rw [hnc, h0, heq]
        rfl
      · intro x hx
        rcases List.mem_cons.mp hx with rfl | hx
        · exact le_refl _
        · exact hmin x hx
    · refine ⟨c₂, c0 :: pre, suf, ?_, by rw [hl, List.cons_append], ?_, ?_⟩
      · rw [hnc, h0, heq]
        rfl
      · intro x hx
        rcases List.mem_cons.mp hx with rfl | hx
        · exact le_of_lt h2
        · exact hmin x hx
      · intro x hx
        rcases List.mem_cons.mp hx with rfl | hx
        · exact h2
        · exact hpre x hx

/-- C3 (witness): the spec's scenario — two courses at forward distances 30
and 10079 minutes; the query picks the one at distance 30 even though the
other comes first in schedule order. -/
theorem c3_next_course_min_witness :
    nextCourse 541 [cEarly, cLater] = some [some cLater] ∧
    timeToCourse 541 cLater = 30 ∧
    timeToCourse 541 cEarly = 10079 ∧
    ∃ c pre suf, nextCourse 541 [cEarly, cLater] = some [some c] ∧
      [cEarly, cLater] = pre ++ c :: suf ∧
      (∀ x ∈ [cEarly, cLater], timeToCourse 541 c ≤ timeToCourse 541 x) ∧
      ∀ x ∈ pre, timeToCourse 541 c < timeToCourse 541 x :=
  ⟨rfl, rfl, rfl,
    c3_next_course_min 541 [cEarly, cLater] [cEarly, cLater] rfl (by decide)⟩

/-- C10 (witness): a single unscheduled course gives the `[None]` result on
both the `'next'` query and the absent identifier. -/
theorem c10_empty_schedule_witness :
    nextCourse (3 * MID + 100) [cUnsched] = some [none] ∧
    get_course_from_argument 3 100 [cUnsched] (some "next") = some [none] ∧
    get_course_from_argument 3 100 [cUnsched] none = some [none] ∧
    ([(none : Option Course)]).length = 1 :=
  c10_empty_schedule 3 100 [cUnsched] (by decide)

/-! ### C8: special identifiers -/

/-- C8 (amended, proved): only the *absent* identifier resolves to the
ongoing course with a fall-back to the next-course query; the tokens `"n"`
and `"next"` resolve to the next-course query; the *empty* token is not
special — it goes down the ordinary identifier-matching path (where the
empty abbreviation prefix-matches every course name). -/
theorem c8_special_identifiers (twd : Nat) (tmin : Int) (courses : List Course) :
    (get_course_from_argument twd tmin courses none =
      (get_ongoing_course twd tmin courses).bind fun og =>
        match og with
        | some c => some [some c]
        | none => nextCourse (twd * MID + tmin) courses) ∧
    get_course_from_argument twd tmin courses (some "n") =
      nextCourse (twd * MID + tmin) courses ∧
    get_course_from_argument twd tmin courses (some "next") =
      nextCourse (twd * MID + tmin) courses ∧
    get_course_from_argument twd tmin courses (some "") =
      matchByIdentifier "" courses := by
  refine ⟨rfl, ?_, ?_, ?_⟩
  · simp only [get_course_from_argument]
    rw [if_pos (Or.inl (by decide))]
  · simp only [get_course_from_argument]
    rw [if_pos (Or.inr (by decide))]
  · simp only [get_course_from_argument]
    rw [if_neg (by decide)]

/-! ### C7: matching a course by its own abbreviation+type token -/

theorem lowerChar_eq_dash {ch : Char} (h : lowerChar ch = '-') : ch = '-' := by
  revert h
  unfold lowerChar
  split <;> intro h
  all_goals first
    | exact h
    | exact absurd h (by decide)

theorem dash_not_mem_map_lowerChar {l : List Char} (h : ('-' : Char) ∉ l) :
    ('-' : Char) ∉ l.map lowerChar := by
  intro hm
  obtain ⟨ch, hch, heq⟩ := List.mem_map.mp hm
  rw [lowerChar_eq_dash heq] at hch
  exact h hch

theorem splitOnChar_sep_append (sep : Char) :
    ∀ (l1 l2 : List Char), sep ∉ l1 →
      splitOnChar sep (l1 ++ sep :: l2) = l1 :: splitOnChar sep l2
  | [], l2, _ => by simp [splitOnChar]
  | c :: cs, l2, h => by
    have hc : c ≠ sep := fun hcs => h (hcs ▸ List.mem_cons_self _ _)
    simp only [List.cons_append, splitOnChar, List.append_eq]
    rw [if_neg hc,
      splitOnChar_sep_append sep cs l2 fun hm => h (List.mem_cons_of_mem _ hm)]

theorem splitOnChar_of_not_mem (sep : Char) :
    ∀ l : List Char, sep ∉ l → splitOnChar sep l = [l]
  | [], _ => rfl
  | c :: cs, h => by
    have hc : c ≠ sep := fun hcs => h (hcs ▸ List.mem_cons_self _ _)
    simp only [splitOnChar]
    rw [if_neg hc, splitOnChar_of_not_mem sep cs fun hm => h (List.mem_cons_of_mem _ hm)]

/-- C7 (amended, proved): a loaded course is always included when matched
by its own abbreviation+type token, *provided* the course is scheduled (the
identifier comprehensions only run over the schedule without unscheduled
courses), its abbreviation contains no `'-'` (the token is split on `'-'`),
and the first letter of its type is not `'-'` and is unchanged by
lowercasing (the token is lowercased before the comparison with the raw
`type[0]`). -/
theorem c7_own_token_matches (twd : Nat) (tmin : Int) (courses : List Course)
    (c : Course) (l : List (Option Course)) (t0 : Char) (trest : List Char)
    (hmem : c ∈ courses) (hsched : c.time.isSome = true)
    (habbr : ('-' : Char) ∉ c.abbreviation.data)
    (hty : c.type.data = t0 :: trest)
    (hlow : lowerChar t0 = t0) (hdash : t0 ≠ '-')
    (h : get_course_from_argument twd tmin courses (some (ownToken c)) = some l) :
    some c ∈ l := by
  have htf : typeFirst c = ⟨[t0]⟩ := by
    unfold typeFirst
    rw [hty]
    rfl
  have hdata : (ownToken c).data = c.abbreviation.data ++ '-' :: [t0] := by
    unfold ownToken
    rw [htf]
    simp [String.data_append]
  -- the token is neither "n" nor "next"
  have hne : ¬ (ownToken c = "n" ∨ ownToken c = "next") := by
    have hm : ('-' : Char) ∈ (ownToken c).data := by
      rw [hdata]
      exact List.mem_append_right _ (List.mem_cons_self _ _)
    rintro (he | he) <;> rw [he] at hm <;> exact absurd hm (by decide)
  simp only [get_course_from_argument] at h
  rw [if_neg hne] at h
  -- the split of the lowered token
  have hparts : argParts (ownToken c) = [pyLower c.abbreviation, ⟨[t0]⟩] := by
    unfold argParts pySplitDash pyLower
    show ((splitOnChar '-' ((ownToken c).data.map lowerChar)).map fun l => (⟨l⟩ : String)) = _
    rw [hdata, List.map_append, List.map_cons, List.map_cons, List.map_nil]
    show ((splitOnChar '-' (_ ++ '-' :: [lowerChar t0])).map fun l => (⟨l⟩ : String)) = _
    rw [hlow, splitOnChar_sep_append '-' _ _ (dash_not_mem_map_lowerChar habbr),
      splitOnChar_of_not_mem '-' [t0] (by simpa using Ne.symm hdash)]
    rfl
  have habbrm : abbrMatches (ownToken c) c = true := by
    unfold abbrMatches argAbbr argType typeMatches
    rw [hparts, htf]
    simp
  -- unpack matchByIdentifier
  unfold matchByIdentifier at h
  obtain ⟨sorted, hgs, hf⟩ := Option.bind_eq_some.mp h
  have hcs : c ∈ sorted := by
    rw [get_sorted_courses_eq hgs]
    rw [List.mem_insertionSort]
    exact List.mem_filter.mpr ⟨hmem, by rw [hsched]; rfl⟩
  split at hf
  · have hcf : c ∈ sorted.filter (abbrMatches (ownToken c)) :=
      List.mem_filter.mpr ⟨hcs, habbrm⟩
    have hemp : (sorted.filter (abbrMatches (ownToken c))).isEmpty = false :=
      List.isEmpty_eq_false.mpr (List.ne_nil_of_mem hcf)
    rw [hemp] at hf
    injection hf with hf
    rw [← hf]
    simp only [Bool.false_eq_true, if_false]
    exact List.mem_map_of_mem some hcf
  · exact absurd hf (by simp)

/-- C7 (amended witness): the course `cMon` (abbreviation `"la"`, type
`"p"`) is returned when matched by its own token `"la-p"`. -/
theorem c7_own_token_matches_witness :
    ownToken cMon = "la-p" ∧ some cMon ∈ [some cMon] :=
  ⟨rfl, c7_own_token_matches 0 0 [cMon] cMon [some cMon] 'p' []
    (by decide) rfl (by decide) rfl rfl (by decide) rfl⟩

/-! ### C1: order facts about the dispatcher's pair comparison -/

theorem char_toNat_inj {a b : Char} (h : a.toNat = b.toNat) : a = b := by
  apply Char.ext
  exact UInt32.val_injective (Fin.val_injective h)

theorem charListLt_irrefl : ∀ l : List Char, charListLt l l = false
  | [] => rfl
  | a :: as => by simp [charListLt, charListLt_irrefl as]

theorem charListLt_trans :
    ∀ {x y z : List Char}, charListLt x y = true → charListLt y z = true →
      charListLt x z = true
  | [], [], _, hxy, _ => absurd hxy (by simp [charListLt])
  | [], _ :: _, [], _, hyz => absurd hyz (by simp [charListLt])
  | [], _ :: _, _ :: _, _, _ => rfl
  | _ :: _, [], _, hxy, _ => absurd hxy (by simp [charListLt])
  | _ :: _, _ :: _, [], _, hyz => absurd hyz (by simp [charListLt])
  | a :: as, b :: bs, c :: cs, hxy, hyz => by
    unfold charListLt at hxy hyz ⊢
    by_cases h1 : a.toNat < b.toNat <;> by_cases h2 : b.toNat < c.toNat
    · rw [if_pos (Nat.lt_trans h1 h2)]
    · rw [if_neg h2] at hyz
      by_cases h4 : b = c
      · subst h4
        rw [if_pos h1]
      · rw [if_neg h4] at hyz
        exact absurd hyz (by simp)
    · rw [if_neg h1] at hxy
      by_cases h3 : a = b
      · subst h3
        rw [if_pos h2]
      · rw [if_neg h3] at hxy
        exact absurd hxy (by simp)
    · rw [if_neg h1] at hxy
      rw [if_neg h2] at hyz
      by_cases h3 : a = b
      · subst h3
        by_cases h4 : a = c
        · rw [if_pos rfl] at hxy
          rw [if_pos h4] at hyz
          subst h4
          simpa using charListLt_trans hxy hyz
        · rw [if_neg h4] at hyz
          exact absurd hyz (by simp)
      · rw [if_neg h3] at hxy
        exact absurd hxy (by simp)

theorem charListLt_total :
    ∀ x y : List Char, charListLt x y = true ∨ x = y ∨ charListLt y x = true
  | [], [] => Or.inr (Or.inl rfl)
  | [], _ :: _ => Or.inl rfl
  | _ :: _, [] => Or.inr (Or.inr rfl)
  | a :: as, b :: bs => by
    rcases Nat.lt_trichotomy a.toNat b.toNat with h1 | h1 | h1
    · refine Or.inl ?_
      unfold charListLt
      rw [if_pos h1]
    · have hab : a = b := char_toNat_inj h1
      subst hab
      rcases charListLt_total as bs with h | h | h
      · refine Or.inl ?_
        unfold charListLt
        simpa using h
      · exact Or.inr (Or.inl (by rw [h]))
      · refine Or.inr (Or.inr ?_)
        unfold charListLt
        simpa using h
    · refine Or.inr (Or.inr ?_)
      unfold charListLt
      rw [if_pos h1]

theorem string_ext {a b : String} (h : a.data = b.data) : a = b := by
  cases a
  cases b
  cases h
  rfl

theorem strLt_irrefl (a : String) : strLt a a = false := charListLt_irrefl a.data

theorem strListLe_refl : ∀ l : List String, strListLe l l = true
  | [] => rfl
  | a :: as => by simp [strListLe, strLt_irrefl, strListLe_refl as]

theorem strListLe_total : ∀ x y : List String, strListLe x y = true ∨ strListLe y x = true
  | [], _ => Or.inl rfl
  | _ :: _, [] => Or.inr rfl
  | a :: as, b :: bs => by
    rcases charListLt_total a.data b.data with h | h | h
    · refine Or.inl ?_
      unfold strListLe
      rw [if_pos (show strLt a b = true from h)]
    · have hab : a = b := string_ext h
      subst hab
      rcases strListLe_total as bs with h | h
      · refine Or.inl ?_
        unfold strListLe
        simpa [strLt_irrefl] using h
      · refine Or.inr ?_
        unfold strListLe
        simpa [strLt_irrefl] using h
    · refine Or.inr ?_
      unfold strListLe
      rw [if_pos (show strLt b a = true from h)]

theorem strLt_asymm {a b : String} (h : strLt a b = true) : strLt b a = false := by
  cases hba : strLt b a
  · rfl
  · exact absurd (charListLt_trans h hba)
      (by rw [show charListLt a.data a.data = strLt a a from rfl, strLt_irrefl]; simp)

theorem strListLe_trans :
    ∀ {x y z : List String}, strListLe x y = true → strListLe y z = true →
      strListLe x z = true
  | [], _, _, _, _ => rfl
  | _ :: _, [], _, hxy, _ => absurd hxy (by simp [strListLe])
  | _ :: _, _ :: _, [], _, hyz => absurd hyz (by simp [strListLe])
  | a :: as, b :: bs, c :: cs, hxy, hyz => by
    unfold strListLe at hxy hyz ⊢
    by_cases h1 : strLt a b = true <;> by_cases h2 : strLt b c = true
    · rw [if_pos (show strLt a c = true from charListLt_trans h1 h2)]
    · rw [if_neg h2] at hyz
      by_cases h4 : b = c
      · subst h4
        rw [if_pos h1]
      · rw [if_neg h4] at hyz
        exact absurd hyz (by simp)
    · rw [if_neg h1] at hxy
      by_cases h3 : a = b
      · subst h3
        rw [if_pos h2]
      · rw [if_neg h3] at hxy
        exact absurd hxy (by simp)
    · rw [if_neg h1] at hxy
      rw [if_neg h2] at hyz
      by_cases h3 : a = b
      · subst h3
        by_cases h4 : a = c
        · rw [if_pos rfl] at hxy
          rw [if_pos h4] at hyz
          subst h4
          simpa [strLt_irrefl] using strListLe_trans hxy hyz
        · rw [if_neg h4] at hyz
          exact absurd hyz (by simp)
      · rw [if_neg h3] at hxy
        exact absurd hxy (by simp)

theorem pairLe_refl (x : Nat × List String) : pairLe x x = true := by
  unfold pairLe
  simp [strListLe_refl x.2]

theorem pairLe_fst_le {x y : Nat × List String} (h : pairRel x y) : x.1 ≤ y.1 := by
  unfold pairRel pairLe at h
  by_cases h1 : x.1 < y.1
  · omega
  · rw [if_neg h1] at h
    by_cases h2 : x.1 = y.1
    · omega
    · rw [if_neg h2] at h
      exact absurd h (by simp)

instance : IsTotal (Nat × List String) pairRel :=
  ⟨fun x y => by
    unfold pairRel pairLe
    rcases Nat.lt_trichotomy x.1 y.1 with h | h | h
    · exact Or.inl (by rw [if_pos h])
    · rcases strListLe_total x.2 y.2 with hs | hs
      · exact Or.inl (by rw [if_neg (by omega), if_pos h]; exact hs)
      · exact Or.inr (by rw [if_neg (by omega), if_pos h.symm]; exact hs)
    · exact Or.inr (by rw [if_pos h])⟩

instance : IsTrans (Nat × List String) pairRel :=
  ⟨fun x y z hxy hyz => by
    unfold pairRel pairLe at *
    by_cases h1 : x.1 < y.1 <;> by_cases h2 : y.1 < z.1
    · rw [if_pos (Nat.lt_trans h1 h2)]
    · rw [if_neg h2] at hyz
      by_cases h4 : y.1 = z.1
      · rw [if_pos (by omega)]
      · rw [if_neg h4] at hyz
        exact absurd hyz (by simp)
    · rw [if_neg h1] at hxy
      by_cases h3 : x.1 = y.1
      · rw [if_pos (by omega)]
      · rw [if_neg h3] at hxy
        exact absurd hxy (by simp)
    · rw [if_neg h1] at hxy
      rw [if_neg h2] at hyz
      by_cases h3 : x.1 = y.1
      · rw [if_pos h3] at hxy
        by_cases h4 : y.1 = z.1
        · rw [if_pos h4] at hyz
          rw [if_neg (by omega), if_pos (by omega)]
          exact strListLe_trans hxy hyz
        · rw [if_neg h4] at hyz
          exact absurd hyz (by simp)
      · rw [if_neg h3] at hxy
        exact absurd hxy (by simp)⟩

/-- In a `pairRel`-sorted list the last element carries the maximal score. -/
theorem sorted_getLast_score_max :
    ∀ {l : List (Nat × List String)}, List.Sorted pairRel l →
      ∀ {b}, l.getLast? = some b → ∀ x ∈ l, x.1 ≤ b.1
  | [], _, b, hb => absurd hb (by simp)
  | [a], _, b, hb => by
    intro x hx
    have hb' : a = b := by
      injection hb
    rcases List.mem_singleton.mp hx with rfl
    rw [hb']
  | a :: c :: t, hs, b, hb => by
    intro x hx
    rw [List.getLast?_cons_cons] at hb
    have hbm : b ∈ c :: t := by
      rw [List.getLast?_eq_getLast _ (by simp)] at hb
      injection hb with hb
      rw [← hb]
      exact List.getLast_mem _
    rcases List.mem_cons.mp hx with rfl | hx
    · exact pairLe_fst_le ((List.sorted_cons.mp hs).1 b hbm)
    · exact sorted_getLast_score_max (List.sorted_cons.mp hs).2 hb x hx

/-- Folding `max` over the per-alias scores of one group. -/
theorem score_foldl (L : Nat) (m : String → Bool) :
    ∀ (d : List String) (acc : Nat),
      (d.map fun s => if m s then L else 0).foldl max acc =
        max acc (if d.any m then L else 0)
  | [], acc => by simp
  | s :: ss, acc => by
    simp only [List.map_cons, List.foldl_cons, List.any_cons]
    rw [score_foldl L m ss]
    by_cases hm : m s = true <;> by_cases ha : ss.any m = true <;>
      simp [hm, ha, max_assoc, max_self, Nat.max_zero, Bool.not_eq_true]

/-- The dispatcher's score of a group is the token length when some alias
of the group starts with the token, and `0` otherwise. -/
theorem childScore_eq (arg : String) (d : List String) :
    childScore arg d = if matchesTok arg d then arg.data.length else 0 := by
  unfold childScore matchesTok
  rw [score_foldl arg.data.length (fun s => pyStartsWith s arg) d 0, Nat.zero_max]

/-- C1 (amended, proved): each child's score is the length of the *token*
when one of its aliases starts with the token (else `0`), so for a
nonempty token every matching child ties at the same positive score: the
dispatcher descends exactly when exactly one child has an alias starting
with the token, reports ambiguity (listing precisely the matching alias
groups) when two or more children match, and reports an unmatched token
when no child matches. -/
theorem c1_dispatch_scoring (arg : String) (children : List (List String))
    (hne : children ≠ []) (harg : arg ≠ "") :
    (children.filter (matchesTok arg) = [] →
      dispatchStep arg children = .unmatched) ∧
    (∀ d, children.filter (matchesTok arg) = [d] →
      dispatchStep arg children = .descend d) ∧
    (2 ≤ (children.filter (matchesTok arg)).length →
      ∃ ds, dispatchStep arg children = .ambiguous ds ∧
        ds.Perm (children.filter (matchesTok arg))) := by
  have hdne : arg.data ≠ [] := by
    intro hd
    apply harg
    cases arg with
    | mk d =>
      cases hd
      rfl
  have hL : 0 < arg.data.length := List.length_pos.mpr hdne
  set g : List String → Nat × List String := fun d => (childScore arg d, d) with hg
  have hperm : (List.insertionSort pairRel (children.map g)).Perm (children.map g) :=
    List.perm_insertionSort _ _
  have hsorted : List.Sorted pairRel (List.insertionSort pairRel (children.map g)) :=
    List.sorted_insertionSort _ _
  have hdecne : List.insertionSort pairRel (children.map g) ≠ [] := by
    intro h0
    have hl := hperm.length_eq
    rw [h0, List.length_map] at hl
    exact hne (List.length_eq_zero.mp hl.symm)
  obtain ⟨b, hb⟩ : ∃ b, (List.insertionSort pairRel (children.map g)).getLast? = some b :=
    ⟨_, List.getLast?_eq_getLast _ hdecne⟩
  have hbmem : b ∈ List.insertionSort pairRel (children.map g) := by
    rw [List.getLast?_eq_getLast _ hdecne] at hb
    injection hb with hb
    rw [← hb]
    exact List.getLast_mem _
  have hbpairs : b ∈ children.map g := hperm.subset hbmem
  have hmax : ∀ x ∈ List.insertionSort pairRel (children.map g), x.1 ≤ b.1 :=
    sorted_getLast_score_max hsorted hb
  have hstep : dispatchStep arg children =
      if b.1 = 0 then .unmatched
      else if 1 < ((List.insertionSort pairRel (children.map g)).filter
          fun x => x.1 == b.1).length then
        .ambiguous (((List.insertionSort pairRel (children.map g)).filter
          fun x => x.1 == b.1).map (·.2))
      else .descend (((List.insertionSort pairRel (children.map g)).filter
          fun x => x.1 == b.1).headD (0, [])).2 := by
    unfold dispatchStep dispatchFinish
    rw [← hg, hb]
  have hscore : ∀ x ∈ children.map g,
      x.1 = 0 ∨ (x.1 = arg.data.length ∧ matchesTok arg x.2 = true) := by
    intro x hx
    obtain ⟨d, hd, rfl⟩ := List.mem_map.mp hx
    show childScore arg d = 0 ∨ (childScore arg d = arg.data.length ∧ _)
    rw [childScore_eq]
    cases hm : matchesTok arg d
    · left
      rw [if_neg (by simp)]
    · right
      exact ⟨if_pos rfl, rfl⟩
  have hbL : ∀ d0 ∈ children, matchesTok arg d0 = true → b.1 = arg.data.length := by
    intro d0 hd0 hm0
    have h1 : (g d0).1 ≤ b.1 := hmax _ (hperm.mem_iff.mpr (List.mem_map_of_mem g hd0))
    have h2 : (g d0).1 = arg.data.length := by
      show childScore arg d0 = _
      rw [childScore_eq, if_pos hm0]
    rcases hscore b hbpairs with hb0 | ⟨hbl, _⟩
    · omega
    · exact hbl
  have hfe : b.1 = arg.data.length →
      ((children.map g).filter fun x => x.1 == b.1) =
        (children.filter (matchesTok arg)).map g := by
    intro hbl
    rw [List.filter_map]
    congr 1
    apply List.filter_congr
    intro d _
    show ((g d).1 == b.1) = matchesTok arg d
    rw [hbl]
    show (childScore arg d == arg.data.length) = matchesTok arg d
    rw [childScore_eq]
    cases hm : matchesTok arg d
    · rw [if_neg (by simp)]
      simp only [beq_eq_false_iff_ne]
      omega
    · rw [if_pos rfl]
      simp
  refine ⟨?_, ?_, ?_⟩
  · -- no child matches: the top score is 0
    intro hf
    have hb0 : b.1 = 0 := by
      rcases hscore b hbpairs with h | ⟨_, hm⟩
      · exact h
      · exfalso
        obtain ⟨d, hd, hbd⟩ := List.mem_map.mp hbpairs
        have hmd : matchesTok arg d = true := by
          rw [← hbd] at hm
          exact hm
        have : d ∈ children.filter (matchesTok arg) := List.mem_filter.mpr ⟨hd, hmd⟩
        rw [hf] at this
        exact absurd this (List.not_mem_nil d)
    rw [hstep, if_pos hb0]
  · -- exactly one child matches: descend into it
    intro d hf
    have hdmem : d ∈ children.filter (matchesTok arg) := by
      rw [hf]
      exact List.mem_singleton.mpr rfl
    obtain ⟨hdch, hdm⟩ := List.mem_filter.mp hdmem
    have hbl : b.1 = arg.data.length := hbL d hdch hdm
    have hb0 : ¬ b.1 = 0 := by omega
    have hfX : ((List.insertionSort pairRel (children.map g)).filter
        fun x => x.1 == b.1).Perm ((children.filter (matchesTok arg)).map g) := by
      rw [← hfe hbl]
      exact hperm.filter _
    rw [hf] at hfX
    simp only [List.map_cons, List.map_nil] at hfX
    have hbests : ((List.insertionSort pairRel (children.map g)).filter
        fun x => x.1 == b.1) = [g d] := hfX.eq_singleton
    rw [hstep, if_neg hb0, hbests, if_neg (by simp)]
    rfl
  · -- two or more children match: ambiguity over exactly those groups
    intro h2
    have hfne : children.filter (matchesTok arg) ≠ [] := by
      intro h0
      rw [h0] at h2
      simp at h2
    obtain ⟨d0, hd0⟩ := List.exists_mem_of_ne_nil _ hfne
    obtain ⟨hd0c, hd0m⟩ := List.mem_filter.mp hd0
    have hbl : b.1 = arg.data.length := hbL d0 hd0c hd0m
    have hb0 : ¬ b.1 = 0 := by omega
    have hfX : ((List.insertionSort pairRel (children.map g)).filter
        fun x => x.1 == b.1).Perm ((children.filter (matchesTok arg)).map g) := by
      rw [← hfe hbl]
      exact hperm.filter _
    have hlen : 1 < ((List.insertionSort pairRel (children.map g)).filter
        fun x => x.1 == b.1).length := by
      rw [hfX.length_eq, List.length_map]
      omega
    rw [hstep, if_neg hb0, if_pos hlen]
    refine ⟨_, rfl, ?_⟩
    have hmap := hfX.map (·.2)
    rw [List.map_map] at hmap
    have hid : (children.filter (matchesTok arg)).map
        ((fun x : Nat × List String => x.2) ∘ g) = children.filter (matchesTok arg) := by
      rw [show ((fun x : Nat × List String => x.2) ∘ g) = id from rfl, List.map_id]
    rw [hid] at hmap
    exact hmap

/-- C1 (amended witness): at the root, the token `"ch"` matches only the
group `{"check"}`, and the dispatcher descends into it. -/
theorem c1_dispatch_scoring_witness :
    dispatchStep "ch" topChildren = .descend ["check"] :=
  (c1_dispatch_scoring "ch" topChildren (by decide) (by decide)).2.1 ["check"] rfl

end School
